import Mathlib

/-
A shallow embedding of `src/hcf_async.py` (the `HcfAsync` scrapy extension).

Modelling conventions:

* The mutable state of one `HcfAsync` object is the structure `HcfState`;
  every method becomes a pure function from the old state to the new state
  plus the emitted `scrapy.Request` objects, modelled by the structured
  descriptors `HcfOp`.
* Python dicts (insertion-ordered, mutated in place) are modelled as
  association lists; `alistGet`, `alistSet` and `alistErase` mirror lookup,
  update-or-append-at-end (the net effect of `setdefault` plus in-place
  mutation) and `dict.pop`.
* `num_links_to_fetch`, `num_links_batch` and `slot_buf_size` are link
  counts (per the constructor docstring) and are modelled as `Nat`;
  Python's `max(n - d, 0)` is mirrored literally, `Nat` subtraction
  already truncating at zero.
* `assert response.status == 200` at the head of each completion callback
  is modelled by the callback returning `Option HcfState`: an assertion
  failure raises before any mutation, so `none` means no state change.
* JSON (de)serialisation of response bodies, authentication decoration
  (`request_authenticate`) and the consumer callback `new_link_callback`
  are external collaborators; read-response bodies arrive pre-parsed as
  `FetchBatch` values and outbound add bodies stay structured.
* `raise scrapy.exceptions.DontCloseSpider` at the end of an `on_idle`
  branch becomes the `Bool` component of the result (`true` = raised).
* Python truthiness: `if self.ids_to_delete` is false for both `None` and
  the empty list (`truthyIds`); `if self.num_links_to_fetch` tests `≠ 0`;
  `elif self.link_buf` tests dict non-emptiness.
-/

/-- An opaque JSON value stored in an outbound link record. -/
inductive JVal where
  | str (s : String) : JVal
  | int (n : Int) : JVal
deriving DecidableEq

/-- The record `link_data` built by `add_link_to_hcf` (a Python dict in
insertion order, hence an ordered association list). -/
abbrev LinkData := List (String × JVal)

/-- `self.link_buf`: frontier name ↦ slot name ↦ buffered link records. -/
abbrev LinkBuf := List (String × List (String × List LinkData))

instance : DecidableEq (List (String × List LinkData)) :=
  inferInstance

instance : DecidableEq LinkBuf :=
  inferInstance

/-- Association-list lookup (Python dict indexing / `setdefault` read). -/
def alistGet {α : Type} (l : List (String × α)) (k : String) : Option α :=
  match l with
  | [] => none
  | (k', v) :: t => if k' = k then some v else alistGet t k

/-- Association-list write: update in place if the key exists (keeping its
position, as a Python dict does), else append at the end (Python dicts add
new keys in insertion order). -/
def alistSet {α : Type} (l : List (String × α)) (k : String) (v : α) :
    List (String × α) :=
  match l with
  | [] => [(k, v)]
  | (k', v') :: t => if k' = k then (k, v) :: t else (k', v') :: alistSet t k v

/-- Association-list key removal (`dict.pop`). -/
def alistErase {α : Type} (l : List (String × α)) (k : String) :
    List (String × α) :=
  match l with
  | [] => []
  | (k', v') :: t => if k' = k then t else (k', v') :: alistErase t k

/-- The per-instance fields of an `HcfAsync` object: the configuration set
by `__init__` plus the mutable crawl state (`ids_to_delete`,
`num_links_to_delete`, `new_job_scheduled`, `link_buf`).
`consume_from` is modelled as a present pair: the code unconditionally
destructures it when a delete or fetch becomes eligible, and a missing
destination is a configuration error outside the core (spec section 7c). -/
structure HcfState where
  num_links_to_fetch : Nat
  num_links_batch : Nat
  consume_from : String × String
  start_new_job : Bool
  slot_buf_size : Nat
  debug_mode : Bool
  hs_project_id : String
  hs_auth : String
  hs_endpoint : String
  ids_to_delete : Option (List String)
  num_links_to_delete : Nat
  new_job_scheduled : Bool
  link_buf : LinkBuf
deriving DecidableEq

/-- `__init__`: stores the configuration, caps `num_links_batch` at the
hardcoded hubstorage maximum 10000, and leaves the crawl state at the
class-level defaults (`None`, `0`, `False`, `{}`). -/
def HcfAsync_init (num_links_to_fetch num_links_batch : Nat)
    (consume_from : String × String) (start_new_job : Bool)
    (slot_buf_size : Nat) (debug_mode : Bool)
    (hs_project_id hs_auth hs_endpoint : String) : HcfState :=
  { num_links_to_fetch := num_links_to_fetch
    num_links_batch := min num_links_batch 10000
    consume_from := consume_from
    start_new_job := start_new_job
    slot_buf_size := slot_buf_size
    debug_mode := debug_mode
    hs_project_id := hs_project_id
    hs_auth := hs_auth
    hs_endpoint := hs_endpoint
    ids_to_delete := none
    num_links_to_delete := 0
    new_job_scheduled := false
    link_buf := [] }

/-- Python `str.strip('/')`: remove leading and trailing slashes. -/
def strip_slash (s : String) : String :=
  String.mk (((s.toList.dropWhile (fun c => c = '/')).reverse.dropWhile
    (fun c => c = '/')).reverse)

/-- `url_component_join(*args)`: `'/'.join(x.strip('/') for x in args)`. -/
def url_component_join (args : List String) : String :=
  String.intercalate "/" (args.map strip_slash)

/-- A `scrapy.Request` emitted by the extension, reduced to the data the
core decides on: the delete request (URL, newline-joined quoted ids body,
and the two `meta` counters), the read request (URL and the `mincount`
form parameter, serialised with `str` on the wire), the add request (URL
and the structured links whose body is their newline-joined JSON dumps),
and the schedule request (URL and the two form parameters). -/
inductive HcfOp where
  | deleteQ (url : String) (body : String) (num_ids num_links : Nat) : HcfOp
  | readQ (url : String) (mincount : Nat) : HcfOp
  | addQ (url : String) (links : List LinkData) : HcfOp
  | scheduleJob (url project spider : String) : HcfOp
deriving DecidableEq

/-- The four operation categories of the priority chain. -/
inductive OpKind where
  | delete : OpKind
  | fetch : OpKind
  | flush : OpKind
  | followup : OpKind
deriving DecidableEq

/-- Which category an emitted request belongs to (determined by which
branch of `on_idle` builds it, hence by its callback). -/
def HcfOp.kind : HcfOp → OpKind
  | .deleteQ _ _ _ _ => OpKind.delete
  | .readQ _ _ => OpKind.fetch
  | .addQ _ _ => OpKind.flush
  | .scheduleJob _ _ _ => OpKind.followup

/-- `True` iff the op is the schedule-new-job request. -/
def HcfOp.isFollowup : HcfOp → Bool
  | .scheduleJob _ _ _ => true
  | _ => false

/-- Python truthiness of `self.ids_to_delete`: falsy when `None` and when
the empty list. -/
def truthyIds : Option (List String) → Bool
  | none => false
  | some l => !l.isEmpty

/-- The `link_data` dict built at the top of `add_link_to_hcf`: always
`'fp'`, then each of `'qdata'`, `'fdata'`, `'p'` exactly when the argument
`is not None` (so a priority of `0` or an empty-string payload is kept). -/
def mkLinkData (fingerprint : String) (qdata fdata : Option String)
    (p : Option Int) : LinkData :=
  [("fp", JVal.str fingerprint)]
    ++ (match qdata with | some v => [("qdata", JVal.str v)] | none => [])
    ++ (match fdata with | some v => [("fdata", JVal.str v)] | none => [])
    ++ (match p with | some v => [("p", JVal.int v)] | none => [])

/-- `_get_add_queue_request`: the POST to
`endpoint/hcf/project/frontier/s/slot` carrying the buffered links. -/
def mkAddOp (s : HcfState) (frontier slot : String) (links : List LinkData) :
    HcfOp :=
  HcfOp.addQ
    (url_component_join
      [s.hs_endpoint, "hcf", s.hs_project_id, frontier, "s", slot])
    links

/-- The buffer manipulation of `add_link_to_hcf` (lines 230-238), acting on
one `link_buf` dict: `setdefault` the frontier dict and the slot list,
append the record, and on reaching `slot_buf_size` detach the slot list
(`frontier_buf.pop(slot)`, then `link_buf.pop(frontier)` if the frontier
dict emptied) and return it for transmission.  Factored over the dict value
so that the same logic can also be applied through the class-attribute
aliasing model (`addViaInstance`). -/
def linkBufAdd (lb : LinkBuf) (cap : Nat) (frontier slot : String)
    (link_data : LinkData) : LinkBuf × Option (List LinkData) :=
  let frontier_buf := (alistGet lb frontier).getD []
  let slot_buf := (alistGet frontier_buf slot).getD [] ++ [link_data]
  if cap ≤ slot_buf.length then
    let frontier_buf2 := alistErase frontier_buf slot
    let lb2 := if frontier_buf2 = [] then alistErase lb frontier
               else alistSet lb frontier frontier_buf2
    (lb2, some slot_buf)
  else
    (alistSet lb frontier (alistSet frontier_buf slot slot_buf), none)

/-- `add_link_to_hcf`: buffer the link record; return the add-queue request
when the slot buffer reached `slot_buf_size`, else `None`. -/
def add_link_to_hcf (s : HcfState) (frontier slot fingerprint : String)
    (qdata fdata : Option String) (p : Option Int) :
    HcfState × Option HcfOp :=
  let link_data := mkLinkData fingerprint qdata fdata p
  let r := linkBufAdd s.link_buf s.slot_buf_size frontier slot link_data
  ({ s with link_buf := r.1 },
   r.2.map (fun links => mkAddOp s frontier slot links))

/-- One parsed line of a read-queue response body:
`{"id": <delete-id>, "requests": [[fingerprint, qdata], ...]}`. -/
structure FetchBatch where
  id : String
  requests : List (String × Option String)
deriving DecidableEq

/-- `parse_delete_from_queue`: assert 200 (else the exception propagates
before anything happened, i.e. `none`), then only log. -/
def parse_delete_from_queue (s : HcfState) (status : Nat) : Option HcfState :=
  if status = 200 then some s else none

/-- `parse_read_queue`: assert 200; set `ids_to_delete` to the batch ids of
the response, `num_links_to_delete` to the number of returned links,
subtract that number from `num_links_to_fetch` flooring at 0, and force the
counter to 0 when no links came back or when in debug mode.  The handing of
the links to `new_link_callback` and the forwarding of its yields are the
external consumer interface and carry no core state. -/
def parse_read_queue (s : HcfState) (status : Nat)
    (batches : List FetchBatch) : Option HcfState :=
  if status = 200 then
    let ids := batches.map (fun b => b.id)
    let links := batches.flatMap (fun b => b.requests)
    let n1 := max (s.num_links_to_fetch - links.length) 0
    let n2 := if links = [] then 0 else n1
    let n3 := if s.debug_mode then 0 else n2
    some { s with ids_to_delete := some ids,
                  num_links_to_delete := links.length,
                  num_links_to_fetch := n3 }
  else none

/-- `parse_add_queue`: assert 200, decode `newcount`, log; no state. -/
def parse_add_queue (s : HcfState) (status : Nat) (newcount : Nat) :
    Option HcfState :=
  if status = 200 then some s else none

/-- `parse_schedule_job`: assert 200, log; no state. -/
def parse_schedule_job (s : HcfState) (status : Nat) : Option HcfState :=
  if status = 200 then some s else none

/-- Branch condition of `on_idle` line 121:
`if self.ids_to_delete and not self.debug_mode`. -/
def deleteCond (s : HcfState) : Bool :=
  truthyIds s.ids_to_delete && !s.debug_mode

/-- Branch condition of `on_idle` line 144: `elif self.num_links_to_fetch`. -/
def fetchCond (s : HcfState) : Bool :=
  s.num_links_to_fetch != 0

/-- Branch condition of `on_idle` line 164: `elif self.link_buf`. -/
def flushCond (s : HcfState) : Bool :=
  !s.link_buf.isEmpty

/-- Branch condition of `on_idle` line 174:
`elif self.start_new_job and not self.new_job_scheduled`. -/
def followCond (s : HcfState) : Bool :=
  s.start_new_job && !s.new_job_scheduled

/-- The add requests issued by the flush branch of `on_idle` (lines
166-171): one per `(frontier, slot)` pair with a truthy slot buffer, in
dict iteration order. -/
def flushOps (s : HcfState) : List HcfOp :=
  s.link_buf.flatMap (fun fp =>
    fp.2.flatMap (fun sp =>
      if sp.2 = [] then [] else [mkAddOp s fp.1 sp.1 sp.2]))

/-- `on_idle`: the idle-signal handler.  Returns the new state, the
requests handed to `spider.crawler.engine.crawl`, and whether
`DontCloseSpider` was raised.  Exactly one `elif` branch runs. -/
def on_idle (s : HcfState) (spider : String) : HcfState × List HcfOp × Bool :=
  if deleteCond s then
    let ids := s.ids_to_delete.getD []
    let url := url_component_join
      [s.hs_endpoint, "hcf", s.hs_project_id, s.consume_from.1, "s",
       s.consume_from.2, "q", "deleted"]
    let body := String.intercalate "\n"
      (ids.map (fun x => "\x22" ++ x ++ "\x22"))
    ({ s with num_links_to_delete := 0, ids_to_delete := none },
     [HcfOp.deleteQ url body ids.length s.num_links_to_delete], true)
  else if fetchCond s then
    let url := url_component_join
      [s.hs_endpoint, "hcf", s.hs_project_id, s.consume_from.1, "s",
       s.consume_from.2, "q"]
    (s, [HcfOp.readQ url (min s.num_links_batch s.num_links_to_fetch)], true)
  else if flushCond s then
    ({ s with link_buf := [] }, flushOps s, true)
  else if followCond s then
    ({ s with new_job_scheduled := true },
     [HcfOp.scheduleJob "https://dash.scrapinghub.com/api/schedule.json"
        s.hs_project_id spider], true)
  else
    (s, [], false)

/-- The first category of the priority chain whose condition holds, if
any: delete before fetch before flush before follow-up. -/
def firstMatch (s : HcfState) : Option OpKind :=
  if deleteCond s then some OpKind.delete
  else if fetchCond s then some OpKind.fetch
  else if flushCond s then some OpKind.flush
  else if followCond s then some OpKind.followup
  else none

/-- The events that can reach one `HcfAsync` instance: an idle signal, an
`add_link_to_hcf` call, and the four operation-completion callbacks with
the response status (and payload where the callback reads it). -/
inductive HcfEvent where
  | idle (spider : String) : HcfEvent
  | addLink (frontier slot fingerprint : String)
      (qdata fdata : Option String) (p : Option Int) : HcfEvent
  | deleteDone (status : Nat) : HcfEvent
  | readDone (status : Nat) (batches : List FetchBatch) : HcfEvent
  | addDone (status : Nat) (newcount : Nat) : HcfEvent
  | scheduleDone (status : Nat) : HcfEvent

/-- One event applied to the instance state.  A completion callback whose
assertion fails (non-200 status) raises out of the callback with the state
untouched, hence `Option.getD s`. -/
def stepEv (s : HcfState) : HcfEvent → HcfState × List HcfOp
  | .idle sp => ((on_idle s sp).1, (on_idle s sp).2.1)
  | .addLink f sl fp q fd p =>
      ((add_link_to_hcf s f sl fp q fd p).1,
       (add_link_to_hcf s f sl fp q fd p).2.toList)
  | .deleteDone st => ((parse_delete_from_queue s st).getD s, [])
  | .readDone st bs => ((parse_read_queue s st bs).getD s, [])
  | .addDone st nc => ((parse_add_queue s st nc).getD s, [])
  | .scheduleDone st => ((parse_schedule_job s st).getD s, [])

/-- A whole event trace: final state and all requests ever emitted. -/
def runEvents (s : HcfState) : List HcfEvent → HcfState × List HcfOp
  | [] => (s, [])
  | e :: t =>
      ((runEvents (stepEv s e).1 t).1,
       (stepEv s e).2 ++ (runEvents (stepEv s e).1 t).2)

/-- How many schedule-new-job requests a list of ops contains. -/
def schedCount (ops : List HcfOp) : Nat :=
  ops.countP HcfOp.isFollowup

/-- A sequence of `add_link_to_hcf` calls aimed at one destination. -/
structure AddArgs where
  fp : String
  qdata : Option String
  fdata : Option String
  p : Option Int
deriving DecidableEq

/-- The record an `AddArgs` call buffers. -/
def argsLink (a : AddArgs) : LinkData :=
  mkLinkData a.fp a.qdata a.fdata a.p

/-- Run a sequence of `add_link_to_hcf` calls against one `(frontier,
slot)` destination, collecting each call's return value in order. -/
def runAdds (s : HcfState) (frontier slot : String) :
    List AddArgs → HcfState × List (Option HcfOp)
  | [] => (s, [])
  | a :: t =>
      ((runAdds (add_link_to_hcf s frontier slot a.fp a.qdata a.fdata a.p).1
          frontier slot t).1,
       (add_link_to_hcf s frontier slot a.fp a.qdata a.fdata a.p).2 ::
       (runAdds (add_link_to_hcf s frontier slot a.fp a.qdata a.fdata a.p).1
          frontier slot t).2)

/-- The buffered records of one destination as seen in a `link_buf`. -/
def bufView (lb : LinkBuf) (frontier slot : String) : List LinkData :=
  (alistGet ((alistGet lb frontier).getD []) slot).getD []

/-- Shape invariant maintained while a single destination is being filled
from fresh: either nothing of the frontier is buffered yet, or the
frontier entry holds exactly the one slot currently being filled. -/
def Qinv (lb : LinkBuf) (frontier slot : String) (b : List LinkData) : Prop :=
  (b = [] ∧ alistGet lb frontier = none) ∨
  (b ≠ [] ∧ ∃ lb₀, alistGet lb₀ frontier = none ∧
    lb = alistSet lb₀ frontier [(slot, b)])

/-- Well-formedness of `link_buf` as produced by the extension itself
(spec section 3: the buffer's key set always reflects destinations with
genuinely pending data): every frontier entry is a non-empty dict of
non-empty slot lists. -/
def WFbuf (lb : LinkBuf) : Prop :=
  ∀ p ∈ lb, p.2 ≠ [] ∧ ∀ q ∈ p.2, q.2 ≠ []

/-- Two `HcfAsync` instances under Python attribute semantics.  The class
body of `HcfAsync` declares `link_buf = {}` (line 24): a single mutable
dict stored on the class.  `__init__` never rebinds `self.link_buf`, so an
attribute read resolves to the instance attribute only if the instance has
rebound it (`self.link_buf = {}` in the flush branch of `on_idle`), and
otherwise to the class-level dict shared by every instance; the in-place
mutations of `add_link_to_hcf` (`setdefault`, `append`, `pop`) apply to
whichever dict the read resolved to. -/
structure SharedWorld where
  classLinkBuf : LinkBuf
  own1 : Option LinkBuf
  own2 : Option LinkBuf
  cap1 : Nat
  cap2 : Nat
deriving DecidableEq

/-- Python attribute lookup of `self.link_buf` on instance 1 or 2. -/
def observedBuf (w : SharedWorld) (first : Bool) : LinkBuf :=
  (if first then w.own1 else w.own2).getD w.classLinkBuf

/-- In-place mutation of the dict that `self.link_buf` resolved to. -/
def writeObservedBuf (w : SharedWorld) (first : Bool) (b : LinkBuf) :
    SharedWorld :=
  if first then
    match w.own1 with
    | some _ => { w with own1 := some b }
    | none => { w with classLinkBuf := b }
  else
    match w.own2 with
    | some _ => { w with own2 := some b }
    | none => { w with classLinkBuf := b }

/-- `a.add_link_to_hcf(...)` under the class-attribute aliasing model:
the same buffer logic as `add_link_to_hcf`, applied to the dict the
instance's `self.link_buf` resolves to. -/
def addViaInstance (w : SharedWorld) (first : Bool)
    (frontier slot fingerprint : String) (qdata fdata : Option String)
    (p : Option Int) : SharedWorld × Option (List LinkData) :=
  let cap := if first then w.cap1 else w.cap2
  let r := linkBufAdd (observedBuf w first) cap frontier slot
    (mkLinkData fingerprint qdata fdata p)
  (writeObservedBuf w first r.1, r.2)

/-- A configured instance used by the concrete witnesses: fresh crawl
state, default-ish configuration, short endpoint strings. -/
def cfg0 : HcfState :=
  { num_links_to_fetch := 0
    num_links_batch := 1000
    consume_from := ("f0", "s0")
    start_new_job := false
    slot_buf_size := 4096
    debug_mode := false
    hs_project_id := "p"
    hs_auth := "k"
    hs_endpoint := "e"
    ids_to_delete := none
    num_links_to_delete := 0
    new_job_scheduled := false
    link_buf := [] }

/-- Witness state with both a pending delete and a pending fetch. -/
def sDel : HcfState :=
  { cfg0 with ids_to_delete := some ["a", "b"], num_links_to_fetch := 5,
              num_links_to_delete := 7 }

/-- Witness state for the buffering example: capacity 3. -/
def sBuf : HcfState :=
  { cfg0 with slot_buf_size := 3 }

/-- The four inserts A, B, C, D of the spec's buffering example. -/
def argsABCD : List AddArgs :=
  [⟨"A", none, none, none⟩, ⟨"B", none, none, none⟩,
   ⟨"C", none, none, none⟩, ⟨"D", none, none, none⟩]

/-- Witness state for the read example: 100 links still wanted. -/
def sRead : HcfState :=
  { cfg0 with num_links_to_fetch := 100 }

/-- The read response of the spec's example: 2 batches covering 40 links. -/
def batches40 : List FetchBatch :=
  [⟨"1", List.replicate 15 ("u", none)⟩,
   ⟨"2", List.replicate 25 ("v", none)⟩]

/-- Witness state for the follow-up trigger. -/
def sJob : HcfState :=
  { cfg0 with start_new_job := true }

/-- Three idle signals in a row. -/
def evsJob : List HcfEvent :=
  [HcfEvent.idle "sp", HcfEvent.idle "sp", HcfEvent.idle "sp"]

/-- Witness state for the fetch example: 150 wanted, batch size 1000. -/
def sFetch : HcfState :=
  { cfg0 with num_links_to_fetch := 150 }

/-- Two freshly constructed instances: neither has rebound `link_buf`,
both see the class-level dict, which is empty at import time. -/
def w0 : SharedWorld :=
  { classLinkBuf := [], own1 := none, own2 := none,
    cap1 := 4096, cap2 := 4096 }

/-- Claim C10: every record buffered by `add_link_to_hcf` binds the key
`fp` to the given fingerprint, and binds `qdata`, `fdata` resp. `p`
exactly when the corresponding argument is present (`is not None`), to
exactly that argument; an absent argument leaves its key unbound.  In
particular an explicit priority `0` or an empty-string payload is kept. -/
theorem mkLinkData_keys (fingerprint : String) (qdata fdata : Option String)
    (p : Option Int) :
    alistGet (mkLinkData fingerprint qdata fdata p) "fp"
      = some (JVal.str fingerprint)
    ∧ alistGet (mkLinkData fingerprint qdata fdata p) "qdata"
      = qdata.map JVal.str
    ∧ alistGet (mkLinkData fingerprint qdata fdata p) "fdata"
      = fdata.map JVal.str
    ∧ alistGet (mkLinkData fingerprint qdata fdata p) "p"
      = p.map JVal.int := by
  cases qdata <;> cases fdata <;> cases p <;>
    simp [mkLinkData, alistGet]

/-- Claim C3: a successful (status 200) read completion sets the pending
delete ids to the batch ids of the response, records the number of
returned links, and decrements the remaining-fetch counter by that number
floored at 0 (`Nat` subtraction), forcing it to exactly 0 when the
response carried no links or when debug mode is on, regardless of the
counter's prior value. -/
theorem parse_read_queue_spec (s : HcfState) (status : Nat)
    (batches : List FetchBatch) (h : status = 200) :
    parse_read_queue s status batches =
      some { s with
        ids_to_delete := some (batches.map (fun b => b.id)),
        num_links_to_delete := (batches.flatMap (fun b => b.requests)).length,
        num_links_to_fetch :=
          if s.debug_mode = true ∨ batches.flatMap (fun b => b.requests) = []
          then 0
          else s.num_links_to_fetch
            - (batches.flatMap (fun b => b.requests)).length } := by
  subst h
  by_cases hd : s.debug_mode = true
  · simp [parse_read_queue, hd]
  · by_cases he : batches.flatMap (fun b => b.requests) = []
    · simp [parse_read_queue, hd, he]
    · simp [parse_read_queue, hd, he]

/-- Witness for C3, the spec's example: a fetch returning 2 batches
covering 40 links while 100 links are still wanted leaves a counter of 60
and 2 pending delete ids. -/
theorem parse_read_queue_spec_witness :
    parse_read_queue sRead 200 batches40 =
      some { sRead with ids_to_delete := some ["1", "2"],
                        num_links_to_delete := 40,
                        num_links_to_fetch := 60 } := by
  rw [parse_read_queue_spec sRead 200 batches40 rfl]
  decide

/-- Claim C8: every completion callback asserts `status == 200` first, so
a non-success completion raises before any state update (the callback
yields no successor state) and the instance state is left untouched. -/
theorem callbacks_reject_non_success (s : HcfState) (status : Nat)
    (batches : List FetchBatch) (newcount : Nat) (h : status ≠ 200) :
    parse_delete_from_queue s status = none
    ∧ parse_read_queue s status batches = none
    ∧ parse_add_queue s status newcount = none
    ∧ parse_schedule_job s status = none
    ∧ (stepEv s (HcfEvent.deleteDone status)).1 = s
    ∧ (stepEv s (HcfEvent.readDone status batches)).1 = s
    ∧ (stepEv s (HcfEvent.addDone status newcount)).1 = s
    ∧ (stepEv s (HcfEvent.scheduleDone status)).1 = s := by
  simp [parse_delete_from_queue, parse_read_queue, parse_add_queue,
    parse_schedule_job, stepEv, h]

/-- Witness for C8 at a concrete 404 completion. -/
theorem callbacks_reject_non_success_witness :
    parse_delete_from_queue cfg0 404 = none
    ∧ parse_read_queue cfg0 404 [] = none
    ∧ parse_add_queue cfg0 404 0 = none
    ∧ parse_schedule_job cfg0 404 = none
    ∧ (stepEv cfg0 (HcfEvent.deleteDone 404)).1 = cfg0
    ∧ (stepEv cfg0 (HcfEvent.readDone 404 [])).1 = cfg0
    ∧ (stepEv cfg0 (HcfEvent.addDone 404 0)).1 = cfg0
    ∧ (stepEv cfg0 (HcfEvent.scheduleDone 404)).1 = cfg0 :=
  callbacks_reject_non_success cfg0 404 [] 0 (by decide)

/-- Claim C9 (refuted by the code; the spec is the evident intent): two
freshly constructed instances share the single class-level `link_buf`
dict, so an `add_link_to_hcf` call through the first instance changes the
write-buffer contents observed through the second. -/
theorem link_buf_shared_across_instances :
    observedBuf w0 false = []
    ∧ observedBuf (addViaInstance w0 true "f" "s" "fp" none none none).1 false
        = [("f", [("s", [mkLinkData "fp" none none none])])] := by
  decide

/-- Counterexample to C4 as stated: in a state with pending delete ids
`["a", "b"]` and debug off, the idle evaluation emits the delete request
and has already reset the pending-delete set to `None` (and the link
counter to 0), before any completion callback ran. -/
theorem delete_emission_clears_pending_counterexample :
    deleteCond sDel = true
    ∧ (∃ op ∈ (on_idle sDel "sp").2.1, op.kind = OpKind.delete)
    ∧ (on_idle sDel "sp").1.ids_to_delete = none
    ∧ (on_idle sDel "sp").1.num_links_to_delete = 0 := by
  decide

/-- Claim C4 (amended): the pending-delete set is cleared at the moment
the idle handler emits the delete request — `on_idle` resets
`ids_to_delete` to `None` and `num_links_to_delete` to 0 in the same
evaluation — while the delete completion callback performs no state
mutation at all. -/
theorem delete_clears_on_emission (s : HcfState) (sp : String)
    (h : truthyIds s.ids_to_delete = true) (hdbg : s.debug_mode = false) :
    (on_idle s sp).1.ids_to_delete = none
    ∧ (on_idle s sp).1.num_links_to_delete = 0
    ∧ (∃ op ∈ (on_idle s sp).2.1, op.kind = OpKind.delete)
    ∧ parse_delete_from_queue s 200 = some s := by
  have hc : deleteCond s = true := by
    simp [deleteCond, h, hdbg]
  simp [on_idle, hc, parse_delete_from_queue, HcfOp.kind]

/-- Witness for the amended C4 at the concrete pending-delete state. -/
theorem delete_clears_on_emission_witness :
    (on_idle sDel "sp").1.ids_to_delete = none
    ∧ (on_idle sDel "sp").1.num_links_to_delete = 0
    ∧ (∃ op ∈ (on_idle sDel "sp").2.1, op.kind = OpKind.delete)
    ∧ parse_delete_from_queue sDel 200 = some sDel :=
  delete_clears_on_emission sDel "sp" (by decide) (by decide)

/-- Every request issued by the flush branch is an add-queue request. -/
theorem flushOps_kind (s : HcfState) (op : HcfOp) (h : op ∈ flushOps s) :
    op.kind = OpKind.flush := by
  simp only [flushOps, List.mem_flatMap] at h
  obtain ⟨fp, _, sp, _, h⟩ := h
  by_cases he : sp.2 = []
  · simp [he] at h
  · simp only [he, if_neg, List.mem_singleton, ite_false] at h
    subst h
    rfl

/-- A well-formed non-empty `link_buf` yields at least one add request. -/
theorem flushOps_ne_nil (s : HcfState) (hwf : WFbuf s.link_buf)
    (h : s.link_buf ≠ []) : flushOps s ≠ [] := by
  obtain ⟨⟨f, fb⟩, t, hlb⟩ : ∃ p t, s.link_buf = p :: t := by
    cases hcase : s.link_buf with
    | nil => exact absurd hcase h
    | cons p t => exact ⟨p, t, rfl⟩
  obtain ⟨hfb, hslots⟩ := hwf (f, fb) (by rw [hlb]; exact List.mem_cons_self _ _)
  obtain ⟨⟨sl, b⟩, t2, hfb2⟩ : ∃ q t2, fb = q :: t2 := by
    cases hcase : fb with
    | nil => exact absurd hcase hfb
    | cons q t2 => exact ⟨q, t2, rfl⟩
  have hb : b ≠ [] := hslots (sl, b) (by rw [hfb2]; exact List.mem_cons_self _ _)
  simp [flushOps, hlb, hfb2, hb]

/-- Claim C1: one idle evaluation emits operations of exactly the first
matching category of the priority chain delete > fetch > flush >
follow-up, never of more than one category; and in a state where both a
delete is wanted (pending ids, debug off) and a fetch is wanted (counter
positive), it emits exactly one delete request and no fetch. -/
theorem on_idle_first_match (s : HcfState) (sp : String) :
    (∀ op ∈ (on_idle s sp).2.1, some op.kind = firstMatch s)
    ∧ (truthyIds s.ids_to_delete = true → s.debug_mode = false →
       0 < s.num_links_to_fetch →
       ∃ op, (on_idle s sp).2.1 = [op] ∧ op.kind = OpKind.delete) := by
  constructor
  · intro op hop
    by_cases h1 : deleteCond s = true
    · simp only [on_idle, h1, if_true, List.mem_singleton, ite_true] at hop
      subst hop
      simp [firstMatch, h1, HcfOp.kind]
    · simp only [Bool.not_eq_true] at h1
      by_cases h2 : fetchCond s = true
      · simp only [on_idle, h1, h2, Bool.false_eq_true, if_false, if_true,
          List.mem_singleton, ite_true, ite_false] at hop
        subst hop
        simp [firstMatch, h1, h2, HcfOp.kind]
      · simp only [Bool.not_eq_true] at h2
        by_cases h3 : flushCond s = true
        · simp only [on_idle, h1, h2, h3, Bool.false_eq_true, if_false,
            if_true, ite_true, ite_false] at hop
          rw [flushOps_kind s op hop]
          simp [firstMatch, h1, h2, h3]
        · simp only [Bool.not_eq_true] at h3
          by_cases h4 : followCond s = true
          · simp only [on_idle, h1, h2, h3, h4, Bool.false_eq_true, if_false,
              if_true, List.mem_singleton, ite_true, ite_false] at hop
            subst hop
            simp [firstMatch, h1, h2, h3, h4, HcfOp.kind]
          · simp only [Bool.not_eq_true] at h4
            simp [on_idle, h1, h2, h3, h4] at hop
  · intro ht hd _
    have h1 : deleteCond s = true := by
      simp [deleteCond, ht, hd]
    simp [on_idle, h1, HcfOp.kind]

/-- Witness for C1 at a state wanting both a delete and a fetch. -/
theorem on_idle_first_match_witness :
    ∃ op, (on_idle sDel "sp").2.1 = [op] ∧ op.kind = OpKind.delete :=
  (on_idle_first_match sDel "sp").2 (by decide) (by decide) (by decide)

/-- Claim C6: any fetch request emitted by the idle handler carries
`mincount = min(num_links_batch, num_links_to_fetch)`. -/
theorem fetch_mincount (s : HcfState) (sp url : String) (mc : Nat)
    (h : HcfOp.readQ url mc ∈ (on_idle s sp).2.1) :
    mc = min s.num_links_batch s.num_links_to_fetch := by
  by_cases h1 : deleteCond s = true
  · simp [on_idle, h1] at h
  · simp only [Bool.not_eq_true] at h1
    by_cases h2 : fetchCond s = true
    · simp only [on_idle, h1, h2, Bool.false_eq_true, if_false, if_true,
        List.mem_singleton, ite_true, ite_false, HcfOp.readQ.injEq] at h
      exact h.2
    · simp only [Bool.not_eq_true] at h2
      by_cases h3 : flushCond s = true
      · simp only [on_idle, h1, h2, h3, Bool.false_eq_true, if_false,
          if_true, ite_true, ite_false] at h
        have hk := flushOps_kind s _ h
        simp [HcfOp.kind] at hk
      · simp only [Bool.not_eq_true] at h3
        by_cases h4 : followCond s = true
        · simp [on_idle, h1, h2, h3, h4] at h
        · simp only [Bool.not_eq_true] at h4
          simp [on_idle, h1, h2, h3, h4] at h

/-- Witness for C6, the spec's example: counter 150, batch size 1000. -/
theorem fetch_mincount_witness :
    (150 : Nat) = min sFetch.num_links_batch sFetch.num_links_to_fetch :=
  fetch_mincount sFetch "sp" "e/hcf/p/f0/s/s0/q" 150 (by decide)

/-- Claim C7: the idle handler raises `DontCloseSpider` exactly when it
emitted at least one request (given the buffer well-formedness the
extension itself maintains), and when no priority-chain condition matches
it emits nothing, mutates nothing and does not raise. -/
theorem on_idle_keepalive_iff (s : HcfState) (sp : String)
    (hwf : WFbuf s.link_buf) :
    ((on_idle s sp).2.2 = true ↔ (on_idle s sp).2.1 ≠ [])
    ∧ (deleteCond s = false → fetchCond s = false → flushCond s = false →
       followCond s = false → on_idle s sp = (s, [], false)) := by
  constructor
  · by_cases h1 : deleteCond s = true
    · simp [on_idle, h1]
    · simp only [Bool.not_eq_true] at h1
      by_cases h2 : fetchCond s = true
      · simp [on_idle, h1, h2]
      · simp only [Bool.not_eq_true] at h2
        by_cases h3 : flushCond s = true
        · have hlb : s.link_buf ≠ [] := by
            simpa [flushCond, List.isEmpty_iff] using h3
          have hops := flushOps_ne_nil s hwf hlb
          simp [on_idle, h1, h2, h3, hops]
        · simp only [Bool.not_eq_true] at h3
          by_cases h4 : followCond s = true
          · simp [on_idle, h1, h2, h3, h4]
          · simp only [Bool.not_eq_true] at h4
            simp [on_idle, h1, h2, h3, h4]
  · intro hd hf hfl hfo
    simp [on_idle, hd, hf, hfl, hfo]

/-- Witness for C7 at the fresh state: nothing matches, nothing happens. -/
theorem on_idle_keepalive_iff_witness :
    on_idle cfg0 "sp" = (cfg0, [], false) :=
  (on_idle_keepalive_iff cfg0 "sp" (by simp [WFbuf, cfg0])).2
    (by decide) (by decide) (by decide) (by decide)

/-- The flush branch never emits a schedule-new-job request. -/
theorem schedCount_flushOps (s : HcfState) : schedCount (flushOps s) = 0 := by
  rw [schedCount, List.countP_eq_zero]
  intro op hop
  have hk := flushOps_kind s op hop
  cases op <;> simp [HcfOp.isFollowup] <;> simp [HcfOp.kind] at hk

/-- No event ever resets `new_job_scheduled`. -/
theorem stepEv_flag_mono (s : HcfState) (e : HcfEvent)
    (h : s.new_job_scheduled = true) :
    (stepEv s e).1.new_job_scheduled = true := by
  cases e with
  | idle sp =>
    by_cases h1 : deleteCond s = true
    · simp [stepEv, on_idle, h1, h]
    · by_cases h2 : fetchCond s = true
      · simp [stepEv, on_idle, h1, h2, h]
      · by_cases h3 : flushCond s = true
        · simp [stepEv, on_idle, h1, h2, h3, h]
        · by_cases h4 : followCond s = true
          · simp [stepEv, on_idle, h1, h2, h3, h4]
          · simp [stepEv, on_idle, h1, h2, h3, h4, h]
  | addLink f sl fp q fd p =>
    simp [stepEv, add_link_to_hcf, h]
  | deleteDone st =>
    by_cases hst : st = 200 <;>
      simp [stepEv, parse_delete_from_queue, hst, h]
  | readDone st bs =>
    by_cases hst : st = 200 <;>
      simp [stepEv, parse_read_queue, hst, h]
  | addDone st nc =>
    by_cases hst : st = 200 <;>
      simp [stepEv, parse_add_queue, hst, h]
  | scheduleDone st =>
    by_cases hst : st = 200 <;>
      simp [stepEv, parse_schedule_job, hst, h]

/-- One event emits a schedule request only if the flag was still unset,
emits at most one, and sets the flag whenever it emitted one. -/
theorem stepEv_sched (s : HcfState) (e : HcfEvent) :
    schedCount (stepEv s e).2
      + (if s.new_job_scheduled = true then 1 else 0) ≤ 1
    ∧ (1 ≤ schedCount (stepEv s e).2 →
        (stepEv s e).1.new_job_scheduled = true) := by
  have hite : (if s.new_job_scheduled = true then 1 else 0) ≤ 1 := by
    split_ifs <;> omega
  cases e with
  | idle sp =>
    by_cases h1 : deleteCond s = true
    · simpa [stepEv, on_idle, h1, schedCount, HcfOp.isFollowup] using hite
    · by_cases h2 : fetchCond s = true
      · simpa [stepEv, on_idle, h1, h2, schedCount, HcfOp.isFollowup]
          using hite
      · by_cases h3 : flushCond s = true
        · have h0 := schedCount_flushOps s
          constructor
          · simpa [stepEv, on_idle, h1, h2, h3, h0] using hite
          · intro hc
            rw [show (stepEv s (HcfEvent.idle sp)).2 = flushOps s by
              simp [stepEv, on_idle, h1, h2, h3], h0] at hc
            omega
        · by_cases h4 : followCond s = true
          · have hflag : s.new_job_scheduled = false := by
              have := h4
              simp only [followCond, Bool.and_eq_true, Bool.not_eq_true']
                at this
              exact this.2
            constructor
            · simp [stepEv, on_idle, h1, h2, h3, h4, schedCount,
                HcfOp.isFollowup, hflag]
            · intro _
              simp [stepEv, on_idle, h1, h2, h3, h4]
          · simpa [stepEv, on_idle, h1, h2, h3, h4, schedCount] using hite
  | addLink f sl fp q fd p =>
    have hz : schedCount (stepEv s (HcfEvent.addLink f sl fp q fd p)).2
        = 0 := by
      simp only [stepEv, add_link_to_hcf]
      cases hr : (linkBufAdd s.link_buf s.slot_buf_size f sl
          (mkLinkData fp q fd p)).2 <;>
        simp [hr, schedCount, HcfOp.isFollowup, mkAddOp]
    constructor
    · rw [hz]; simpa using hite
    · intro hc; rw [hz] at hc; omega
  | deleteDone st =>
    constructor
    · simpa [stepEv, schedCount] using hite
    · intro hc; simp [stepEv, schedCount] at hc
  | readDone st bs =>
    constructor
    · simpa [stepEv, schedCount] using hite
    · intro hc; simp [stepEv, schedCount] at hc
  | addDone st nc =>
    constructor
    · simpa [stepEv, schedCount] using hite
    · intro hc; simp [stepEv, schedCount] at hc
  | scheduleDone st =>
    constructor
    · simpa [stepEv, schedCount] using hite
    · intro hc; simp [stepEv, schedCount] at hc

/-- Claim C5: across every event trace of one coordinator, at most one
schedule-new-job request is ever emitted; the flag is set when the request
is emitted and is never reset. -/
theorem follow_up_at_most_once (s : HcfState) (evs : List HcfEvent) :
    schedCount (runEvents s evs).2
      + (if s.new_job_scheduled = true then 1 else 0) ≤ 1
    ∧ (s.new_job_scheduled = true →
        (runEvents s evs).1.new_job_scheduled = true)
    ∧ (1 ≤ schedCount (runEvents s evs).2 →
        (runEvents s evs).1.new_job_scheduled = true) := by
  induction evs generalizing s with
  | nil =>
    refine ⟨?_, fun h => h, fun h => absurd h (by simp [runEvents, schedCount])⟩
    simp only [runEvents, schedCount, List.countP_nil, Nat.zero_add]
    split_ifs <;> omega
  | cons e t ih =>
    have hstep := stepEv_sched s e
    obtain ⟨ih1, ih2, ih3⟩ := ih (stepEv s e).1
    simp only [runEvents]
    rw [schedCount, List.countP_append, ← schedCount, ← schedCount] at *
    by_cases hf0 : s.new_job_scheduled = true
    · have hf1 : (stepEv s e).1.new_job_scheduled = true :=
        stepEv_flag_mono s e hf0
      have hb0 : schedCount (runEvents (stepEv s e).1 t).2 = 0 := by
        rw [if_pos hf1] at ih1; omega
      have ha0 : schedCount (stepEv s e).2 = 0 := by
        rw [if_pos hf0] at hstep; omega
      refine ⟨?_, fun _ => ih2 hf1, fun _ => ih2 hf1⟩
      rw [if_pos hf0, ha0, hb0]
    · have hf0' : s.new_job_scheduled = false := by
        simpa using hf0
      refine ⟨?_, fun h => absurd h hf0, ?_⟩
      · rw [if_neg hf0]
        by_cases hf1 : (stepEv s e).1.new_job_scheduled = true
        · have hb0 : schedCount (runEvents (stepEv s e).1 t).2 = 0 := by
            rw [if_pos hf1] at ih1; omega
          have ha1 : schedCount (stepEv s e).2 ≤ 1 := by
            rw [if_neg hf0] at hstep; omega
          omega
        · have ha0 : schedCount (stepEv s e).2 = 0 := by
            rcases Nat.eq_zero_or_pos (schedCount (stepEv s e).2) with h | h
            · exact h
            · exact absurd (hstep.2 h) hf1
          have hb1 : schedCount (runEvents (stepEv s e).1 t).2 ≤ 1 := by
            rw [if_neg hf1] at ih1; omega
          omega
      · intro hc
        by_cases hf1 : (stepEv s e).1.new_job_scheduled = true
        · exact ih2 hf1
        · have ha0 : schedCount (stepEv s e).2 = 0 := by
            rcases Nat.eq_zero_or_pos (schedCount (stepEv s e).2) with h | h
            · exact h
            · exact absurd (hstep.2 h) hf1
          exact ih3 (by omega)

/-- Witness for C5: with `start_new_job` set, three idle signals emit the
schedule request once and leave the flag set. -/
theorem follow_up_at_most_once_witness :
    (runEvents sJob evsJob).1.new_job_scheduled = true :=
  (follow_up_at_most_once sJob evsJob).2.2 (by decide)

/-- Looking up a key just written finds the written value. -/
theorem alistGet_set_self {α : Type} (l : List (String × α)) (k : String)
    (v : α) : alistGet (alistSet l k v) k = some v := by
  induction l with
  | nil => simp [alistSet, alistGet]
  | cons p t ih =>
    obtain ⟨k', v'⟩ := p
    by_cases h : k' = k
    · simp [alistSet, alistGet, h]
    · simp [alistSet, alistGet, h, ih]

/-- Writing a key twice keeps only the second value. -/
theorem alistSet_set {α : Type} (l : List (String × α)) (k : String)
    (v w : α) : alistSet (alistSet l k v) k w = alistSet l k w := by
  induction l with
  | nil => simp [alistSet]
  | cons p t ih =>
    obtain ⟨k', v'⟩ := p
    by_cases h : k' = k
    · simp [alistSet, h]
    · simp [alistSet, h, ih]

/-- Removing an absent key changes nothing. -/
theorem alistErase_of_get_none {α : Type} (l : List (String × α))
    (k : String) (h : alistGet l k = none) : alistErase l k = l := by
  induction l with
  | nil => simp [alistErase]
  | cons p t ih =>
    obtain ⟨k', v'⟩ := p
    by_cases hk : k' = k
    · simp [alistGet, hk] at h
    · simp only [alistGet, hk, if_neg, ite_false] at h
      simp [alistErase, hk, ih h]

/-- Removing a key just written onto a list not containing it undoes the
write. -/
theorem alistErase_set_of_get_none {α : Type} (l : List (String × α))
    (k : String) (v : α) (h : alistGet l k = none) :
    alistErase (alistSet l k v) k = l := by
  induction l with
  | nil => simp [alistSet, alistErase]
  | cons p t ih =>
    obtain ⟨k', v'⟩ := p
    by_cases hk : k' = k
    · simp [alistGet, hk] at h
    · simp only [alistGet, hk, if_neg, ite_false] at h
      simp [alistSet, alistErase, hk, ih h]

/-- Under the single-destination invariant, the destination's view is the
tracked buffer. -/
theorem Qinv_bufView (lb : LinkBuf) (f sl : String) (b : List LinkData)
    (hQ : Qinv lb f sl b) : bufView lb f sl = b := by
  rcases hQ with ⟨hb, hget⟩ | ⟨hb, lb₀, hget, rfl⟩
  · subst hb
    simp [bufView, hget, alistGet]
  · simp [bufView, alistGet_set_self, alistGet]

/-- One `linkBufAdd` step under the single-destination invariant: a flush
batch `b ++ [ld]` is returned exactly when the buffer reaches the
capacity, in which case the destination is pruned; otherwise the record is
appended and held. -/
theorem linkBufAdd_spec (lb : LinkBuf) (cap : Nat) (f sl : String)
    (b : List LinkData) (ld : LinkData) (hQ : Qinv lb f sl b) :
    (linkBufAdd lb cap f sl ld).2
      = (if cap ≤ b.length + 1 then some (b ++ [ld]) else none)
    ∧ Qinv (linkBufAdd lb cap f sl ld).1 f sl
        (if cap ≤ b.length + 1 then [] else b ++ [ld]) := by
  rcases hQ with ⟨hb, hget⟩ | ⟨hb, lb₀, hget, rfl⟩
  · subst hb
    have hval : linkBufAdd lb cap f sl ld
        = if cap ≤ 1 then (lb, some [ld])
          else (alistSet lb f [(sl, [ld])], none) := by
      simp [linkBufAdd, hget, alistGet, alistErase, alistSet,
        alistErase_of_get_none lb f hget]
    rw [hval]
    by_cases hc : cap ≤ 1
    · constructor
      · simp [hc]
      · simp only [List.length_nil, Nat.zero_add, hc, ite_true, if_true]
        exact Or.inl ⟨rfl, hget⟩
    · constructor
      · simp [hc]
      · simp only [List.length_nil, Nat.zero_add, hc, ite_false, if_false,
          List.nil_append]
        exact Or.inr ⟨by simp, lb, hget, rfl⟩
  · have hval : linkBufAdd (alistSet lb₀ f [(sl, b)]) cap f sl ld
        = if cap ≤ b.length + 1 then (lb₀, some (b ++ [ld]))
          else (alistSet lb₀ f [(sl, b ++ [ld])], none) := by
      simp [linkBufAdd, alistGet_set_self, alistGet, alistErase, alistSet,
        alistErase_set_of_get_none lb₀ f _ hget, alistSet_set]
    rw [hval]
    by_cases hc : cap ≤ b.length + 1
    · constructor
      · simp [hc]
      · simp only [hc, ite_true, if_true]
        exact Or.inl ⟨rfl, hget⟩
    · constructor
      · simp [hc]
      · simp only [hc, ite_false, if_false]
        exact Or.inr ⟨by simp, lb₀, hget, rfl⟩

/-- For `0 < m ≤ cap`, `m` is a multiple of `cap` exactly at `m = cap`. -/
theorem mod_eq_zero_iff_le (cap m : Nat) (h1 : 0 < m) (h2 : m ≤ cap) :
    m % cap = 0 ↔ cap ≤ m := by
  constructor
  · intro h
    exact Nat.le_of_dvd h1 (Nat.dvd_of_mod_eq_zero h)
  · intro h
    rw [Nat.le_antisymm h2 h, Nat.mod_self]

/-- `add_link_to_hcf` in terms of the buffer step. -/
theorem add_link_to_hcf_parts (s : HcfState) (f sl : String) (a : AddArgs) :
    add_link_to_hcf s f sl a.fp a.qdata a.fdata a.p
      = ({ s with link_buf :=
            (linkBufAdd s.link_buf s.slot_buf_size f sl (argsLink a)).1 },
         (linkBufAdd s.link_buf s.slot_buf_size f sl (argsLink a)).2.map
           (fun links => mkAddOp s f sl links)) := rfl

/-- `add_link_to_hcf` only touches `link_buf`, so the add request built
later is the same. -/
theorem mkAddOp_buf (s : HcfState) (x : LinkBuf) (f sl : String)
    (l : List LinkData) :
    mkAddOp { s with link_buf := x } f sl l = mkAddOp s f sl l := rfl

/-- `add_link_to_hcf` only touches `link_buf`, keeping the capacity. -/
theorem slot_buf_size_buf (s : HcfState) (x : LinkBuf) :
    ({ s with link_buf := x } : HcfState).slot_buf_size
      = s.slot_buf_size := rfl

/-- Reading back the updated buffer. -/
theorem link_buf_buf (s : HcfState) (x : LinkBuf) :
    ({ s with link_buf := x } : HcfState).link_buf = x := rfl

/-- Per-call characterisation of a run of `add_link_to_hcf` calls against
one fresh destination: with `cap = slot_buf_size` and `b` the records
already buffered, call `i` (0-based) returns the add request exactly when
the cumulative count `b.length + i + 1` is a multiple of `cap`, carrying
the last `cap` buffered records in insertion order, and returns `None`
otherwise. -/
theorem runAdds_out (f sl : String) (args : List AddArgs) :
    ∀ (s : HcfState) (b : List LinkData), Qinv s.link_buf f sl b →
      b.length < s.slot_buf_size →
      ∀ i, i < args.length →
      (runAdds s f sl args).2[i]? =
        some (if (b.length + i + 1) % s.slot_buf_size = 0
          then some (mkAddOp s f sl
            ((b ++ (args.take (i + 1)).map argsLink).drop
              (b.length + i + 1 - s.slot_buf_size)))
          else none) := by
  induction args with
  | nil =>
    intro s b _ _ i hi
    simp at hi
  | cons a t ih =>
    intro s b hQ hlen i hi
    obtain ⟨hout, hQ2⟩ :=
      linkBufAdd_spec s.link_buf s.slot_buf_size f sl b (argsLink a) hQ
    have hcap : 0 < s.slot_buf_size := Nat.lt_of_le_of_lt (Nat.zero_le _) hlen
    have hrun : runAdds s f sl (a :: t)
        = ((runAdds { s with link_buf :=
              (linkBufAdd s.link_buf s.slot_buf_size f sl (argsLink a)).1 }
              f sl t).1,
           ((linkBufAdd s.link_buf s.slot_buf_size f sl (argsLink a)).2.map
             (fun links => mkAddOp s f sl links)) ::
           (runAdds { s with link_buf :=
              (linkBufAdd s.link_buf s.slot_buf_size f sl (argsLink a)).1 }
              f sl t).2) := by
      simp only [runAdds, add_link_to_hcf_parts]
    rw [hrun]
    cases i with
    | zero =>
      rw [List.getElem?_cons_zero, hout]
      have hle : b.length + 1 ≤ s.slot_buf_size := Nat.succ_le_of_lt hlen
      have hiff : (b.length + 0 + 1) % s.slot_buf_size = 0
          ↔ s.slot_buf_size ≤ b.length + 1 := by
        simpa using
          mod_eq_zero_iff_le s.slot_buf_size (b.length + 1)
            (Nat.succ_pos _) hle
      by_cases hc : s.slot_buf_size ≤ b.length + 1
      · have he : s.slot_buf_size = b.length + 1 := Nat.le_antisymm hc hle
        rw [if_pos hc, if_pos (hiff.mpr hc)]
        simp [he, List.take_succ_cons]
      · rw [if_neg hc, if_neg (fun h => hc (hiff.mp h))]
        simp
    | succ j =>
      rw [List.getElem?_cons_succ]
      by_cases hc : s.slot_buf_size ≤ b.length + 1
      · -- this call flushed: the destination starts over empty
        have he : s.slot_buf_size = b.length + 1 :=
          Nat.le_antisymm hc (Nat.succ_le_of_lt hlen)
        rw [if_pos hc] at hQ2
        have hstep := ih
          { s with link_buf :=
              (linkBufAdd s.link_buf s.slot_buf_size f sl (argsLink a)).1 }
          [] (by rw [link_buf_buf]; exact hQ2)
          (by rw [slot_buf_size_buf]; simpa using hcap)
          j (by simpa using hi)
        rw [hstep]
        refine congrArg some ?_
        simp only [mkAddOp_buf, slot_buf_size_buf, List.length_nil,
          Nat.zero_add, List.nil_append]
        by_cases hz : (j + 1) % s.slot_buf_size = 0
        · have hz2 : (b.length + (j + 1) + 1) % s.slot_buf_size = 0 := by
            have harith : b.length + (j + 1) + 1
                = s.slot_buf_size + (j + 1) := by omega
            rw [harith, Nat.add_mod_left]
            exact hz
          rw [if_pos hz, if_pos hz2]
          have hcaple : s.slot_buf_size ≤ j + 1 :=
            Nat.le_of_dvd (Nat.succ_pos j) (Nat.dvd_of_mod_eq_zero hz)
          have hlist : b ++ ((a :: t).take (j + 1 + 1)).map argsLink
              = (b ++ [argsLink a]) ++ (t.take (j + 1)).map argsLink := by
            simp [List.take_succ_cons]
          have harith2 : b.length + (j + 1) + 1 - s.slot_buf_size
              = (b ++ [argsLink a]).length + (j + 1 - s.slot_buf_size) := by
            simp only [List.length_append, List.length_cons, List.length_nil]
            omega
          rw [hlist, harith2, List.drop_append]
        · have hz2 : ¬(b.length + (j + 1) + 1) % s.slot_buf_size = 0 := by
            have harith : b.length + (j + 1) + 1
                = s.slot_buf_size + (j + 1) := by omega
            rw [harith, Nat.add_mod_left]
            exact hz
          rw [if_neg hz, if_neg hz2]
      · -- no flush: the record is appended and held
        rw [if_neg hc] at hQ2
        have hlen2 : (b ++ [argsLink a]).length < s.slot_buf_size := by
          simp only [List.length_append, List.length_cons, List.length_nil]
          omega
        have hstep := ih
          { s with link_buf :=
              (linkBufAdd s.link_buf s.slot_buf_size f sl (argsLink a)).1 }
          (b ++ [argsLink a]) (by rw [link_buf_buf]; exact hQ2)
          (by rw [slot_buf_size_buf]; exact hlen2)
          j (by simpa using hi)
        rw [hstep]
        refine congrArg some ?_
        simp only [mkAddOp_buf, slot_buf_size_buf]
        have harith : (b ++ [argsLink a]).length + j + 1
            = b.length + (j + 1) + 1 := by
          simp only [List.length_append, List.length_cons, List.length_nil]
          omega
        have hlist : (b ++ [argsLink a]) ++ (t.take (j + 1)).map argsLink
            = b ++ ((a :: t).take (j + 1 + 1)).map argsLink := by
          simp [List.take_succ_cons]
        rw [harith, hlist]

/-- After a run of `add_link_to_hcf` calls against one fresh destination,
the records still buffered there are exactly the tail after the last
complete capacity-sized chunk. -/
theorem runAdds_view (f sl : String) (args : List AddArgs) :
    ∀ (s : HcfState) (b : List LinkData), Qinv s.link_buf f sl b →
      b.length < s.slot_buf_size →
      bufView (runAdds s f sl args).1.link_buf f sl
        = (b ++ args.map argsLink).drop
            (b.length + args.length
              - (b.length + args.length) % s.slot_buf_size) := by
  induction args with
  | nil =>
    intro s b hQ hlen
    simp only [runAdds, List.map_nil, List.append_nil, List.length_nil,
      Nat.add_zero]
    rw [Nat.mod_eq_of_lt hlen, Nat.sub_self, List.drop_zero]
    exact Qinv_bufView s.link_buf f sl b hQ
  | cons a t ih =>
    intro s b hQ hlen
    obtain ⟨hout, hQ2⟩ :=
      linkBufAdd_spec s.link_buf s.slot_buf_size f sl b (argsLink a) hQ
    have hcap : 0 < s.slot_buf_size := Nat.lt_of_le_of_lt (Nat.zero_le _) hlen
    have hrun1 : (runAdds s f sl (a :: t)).1
        = (runAdds { s with link_buf :=
            (linkBufAdd s.link_buf s.slot_buf_size f sl (argsLink a)).1 }
            f sl t).1 := by
      simp only [runAdds, add_link_to_hcf_parts]
    rw [hrun1]
    by_cases hc : s.slot_buf_size ≤ b.length + 1
    · have he : s.slot_buf_size = b.length + 1 :=
        Nat.le_antisymm hc (Nat.succ_le_of_lt hlen)
      rw [if_pos hc] at hQ2
      have hview := ih
        { s with link_buf :=
            (linkBufAdd s.link_buf s.slot_buf_size f sl (argsLink a)).1 }
        [] (by rw [link_buf_buf]; exact hQ2)
        (by rw [slot_buf_size_buf]; simpa using hcap)
      simp only [slot_buf_size_buf, link_buf_buf, List.nil_append,
        List.length_nil, Nat.zero_add] at hview
      simp only [List.length_cons, List.map_cons]
      have h1 : b.length + (t.length + 1) = s.slot_buf_size + t.length := by
        omega
      rw [h1, Nat.add_mod_left]
      have h2 : s.slot_buf_size + t.length - t.length % s.slot_buf_size
          = (b ++ [argsLink a]).length
            + (t.length - t.length % s.slot_buf_size) := by
        simp only [List.length_append, List.length_cons, List.length_nil]
        have := Nat.mod_le t.length s.slot_buf_size
        omega
      have h3 : b ++ argsLink a :: List.map argsLink t
          = (b ++ [argsLink a]) ++ List.map argsLink t := by
        simp
      rw [h3, h2, List.drop_append]
      exact hview
    · rw [if_neg hc] at hQ2
      have hlen2 : (b ++ [argsLink a]).length < s.slot_buf_size := by
        simp only [List.length_append, List.length_cons, List.length_nil]
        omega
      have hview := ih
        { s with link_buf :=
            (linkBufAdd s.link_buf s.slot_buf_size f sl (argsLink a)).1 }
        (b ++ [argsLink a]) (by rw [link_buf_buf]; exact hQ2)
        (by rw [slot_buf_size_buf]; exact hlen2)
      simp only [slot_buf_size_buf, link_buf_buf] at hview
      rw [hview]
      have h3 : (b ++ [argsLink a]) ++ List.map argsLink t
          = b ++ argsLink a :: List.map argsLink t := by
        simp
      have h4 : (b ++ [argsLink a]).length + t.length
          = b.length + (t.length + 1) := by
        simp only [List.length_append, List.length_cons, List.length_nil]
        omega
      rw [h3, h4]
      simp only [List.length_cons, List.map_cons]

/-- Claim C2: for every sequence of `add_link_to_hcf` calls aimed at one
fresh `(frontier, slot)` destination (with a positive configured
capacity), the add request is returned exactly on the calls at which the
count of records buffered since the last flush reaches `slot_buf_size`,
carrying exactly those capacity-many records in insertion order; every
other call returns `None`, and the records past the last full batch stay
buffered. -/
theorem add_link_flush_exactly (s : HcfState) (frontier slot : String)
    (args : List AddArgs) (hfresh : alistGet s.link_buf frontier = none)
    (hcap : 0 < s.slot_buf_size) :
    (∀ i, i < args.length →
      (runAdds s frontier slot args).2[i]? =
        some (if (i + 1) % s.slot_buf_size = 0
          then some (mkAddOp s frontier slot
            (((args.take (i + 1)).map argsLink).drop
              (i + 1 - s.slot_buf_size)))
          else none))
    ∧ bufView (runAdds s frontier slot args).1.link_buf frontier slot
        = (args.map argsLink).drop
            (args.length - args.length % s.slot_buf_size) := by
  have hQ : Qinv s.link_buf frontier slot [] := Or.inl ⟨rfl, hfresh⟩
  constructor
  · intro i hi
    have h := runAdds_out frontier slot args s [] hQ (by simpa using hcap) i hi
    simpa using h
  · have h := runAdds_view frontier slot args s [] hQ (by simpa using hcap)
    simpa using h

/-- Witness for C2, the spec's example: capacity 3; inserting A, B, C, D
flushes `[A, B, C]` on the third call and leaves D buffered. -/
theorem add_link_flush_exactly_witness :
    (runAdds sBuf "f" "x" argsABCD).2[2]? =
      some (if (2 + 1) % sBuf.slot_buf_size = 0
        then some (mkAddOp sBuf "f" "x"
          (((argsABCD.take (2 + 1)).map argsLink).drop
            (2 + 1 - sBuf.slot_buf_size)))
        else none)
    ∧ bufView (runAdds sBuf "f" "x" argsABCD).1.link_buf "f" "x"
        = (argsABCD.map argsLink).drop
            (argsABCD.length - argsABCD.length % sBuf.slot_buf_size) :=
  ⟨(add_link_flush_exactly sBuf "f" "x" argsABCD
      (by decide) (by decide)).1 2 (by decide),
   (add_link_flush_exactly sBuf "f" "x" argsABCD
      (by decide) (by decide)).2⟩
